import Mathlib

/-!
Shallow embedding of the memory index engine of `kb-service`
(src/kb-service/src/knowledge_base.cpp), the coupled durable record store
(RocksDB), in-memory vector index (faiss::IndexFlatL2) and slot table
(`id_map_`) orchestrated by the `KnowledgeBase` class.

Modelling conventions:
* 32-bit floats are embedded as rationals (`ℚ`); the claims under study are
  about counting, ordering and structural preservation, none about rounding.
* The record store is an association list with unique keys; `put` replaces
  the value of an existing key and appends a fresh key.  RocksDB iterates
  keys in sorted order; none of the properties below depend on the relative
  order of distinct keys, so the model's scan order is the list order.
* A stored value is `Option MemRecord`: `none` stands for bytes on which
  `json::parse` throws (or that do not decode to a JSON object), and a
  decoded record carries `embedding : Option (List ℚ)` where `none` stands
  for a missing or non-array `embedding` field.
* Environmental storage failures (a RocksDB `Put`/`Delete` returning a
  non-ok status) are injected through explicit `putOk`/`delOk` parameters;
  on failure the store is unchanged.
* `generateId` draws from wall clock and a PRNG; the generated id is passed
  in as the explicit parameter `genId`, used exactly where the C++ calls
  `generateId()`.
-/

/-- A vector of floats (`std::vector<float>`), embedded over `ℚ`. -/
abbrev Vec := List ℚ

/-- A decoded memory record, the JSON object written by `addAndReturnId`
(knowledge_base.cpp lines 108-115): fields `id`, `content`, `category`,
`timestamp`, `embedding`.  `embedding = none` models a record whose
`embedding` field is missing or not an array (the
`doc.contains("embedding") && doc["embedding"].is_array()` test of
`loadIndex`, line 56). -/
structure MemRecord where
  id : String
  content : String
  category : String
  timestamp : Int
  embedding : Option Vec
deriving DecidableEq

/-- Bytes stored under a record-store key: `none` when `json::parse` fails
on them, `some r` when they decode to the record `r`. -/
abbrev Val := Option MemRecord

/-- The record store (RocksDB): an association list from key to stored
bytes, keys unique by construction of `Store.put` / `Store.del`. -/
abbrev Store := List (String × Val)

/-- The C++ reserved-key test `key.rfind(p, 0) == 0` (knowledge_base.cpp
lines 49-50): `key` begins with `p`. -/
def startsWithStr (s p : String) : Bool :=
  p.data.isPrefixOf s.data

/-- Point `Get`: the value of the first entry with the given key. -/
def Store.get : Store → String → Option Val
  | [], _ => none
  | (k', v') :: rest, k => if k = k' then some v' else Store.get rest k

/-- Point `Put`: replace the value of an existing key, append a new key. -/
def Store.put : Store → String → Val → Store
  | [], k, v => [(k, v)]
  | (k', v') :: rest, k, v =>
      if k = k' then (k, v) :: rest else (k', v') :: Store.put rest k v

/-- Point `Delete`: drop the entry with the given key (a no-op when the key
is absent, matching RocksDB's ok status on deleting a missing key). -/
def Store.del (s : Store) (k : String) : Store :=
  s.filter (fun kv => kv.1 ≠ k)

/-- The `Memory` input struct (knowledge_base.h): the embedding is an
actual float vector, always serialized by `add`. -/
structure Memory where
  id : String
  content : String
  category : String
  timestamp : Int
  embedding : Vec
deriving DecidableEq

/-- A search hit (`SearchResult` in knowledge_base.h). -/
structure SearchResult where
  id : String
  content : String
  category : String
  score : ℚ
  timestamp : Int
deriving DecidableEq

/-- The engine state: configured dimension `D`, record store, slot table
`idMap` (`id_map_`), and the flat vector index (`faiss::IndexFlatL2`) as
its element count `ntotal` and raw float buffer `vdata` (FAISS stores the
vectors of a flat index as one contiguous `ntotal * d` float array). -/
structure KnowledgeBase where
  dimension : ℕ
  store : Store
  idMap : List String
  ntotal : ℕ
  vdata : List ℚ
deriving DecidableEq

namespace KnowledgeBase

/-- The records `loadIndex` (lines 45-65) keeps: iterate the store, skip
keys beginning `meta:` or `pref:`, skip values that fail to parse, skip
decoded records whose `embedding` field is missing or not an array; each
survivor contributes its key and its embedding array.  Note the C++ code
performs no length check on the embedding array. -/
def survivors (store : Store) : List (String × Vec) :=
  store.filterMap (fun kv =>
    if startsWithStr kv.1 "meta:" then none
    else if startsWithStr kv.1 "pref:" then none
    else match kv.2 with
      | none => none
      | some r =>
        match r.embedding with
        | none => none
        | some e => some (kv.1, e))

/-- `loadIndex` (lines 39-73) as run by its call sites: the constructor
calls it on a fresh index, and `update` / `remove` reset the index and
clear `id_map_` immediately before (lines 195-197, 212-214), so each call
rebuilds slot table and index from the store alone.  `id_map_` receives the
survivor keys in scan order; the survivor embeddings are concatenated into
`all_vectors`; then, only when that buffer is non-empty,
`index_->add(id_map_.size(), all_vectors.data())` is issued, which appends
the buffer and advances `ntotal` by `id_map_.size()`.  (When some survivor
embedding is shorter than `D` that C++ call reads past the end of the
buffer; the model records the raw buffer.) -/
def loadIndex (kb : KnowledgeBase) : KnowledgeBase :=
  let surv := survivors kb.store
  let flat := (surv.map Prod.snd).flatten
  { kb with
    idMap := surv.map Prod.fst
    ntotal := if flat.isEmpty then 0 else surv.length
    vdata := flat }

/-- Engine open (constructor, lines 13-33): open the store, build an empty
index of dimension `D`, then `loadIndex`. -/
def openKB (D : ℕ) (store : Store) : KnowledgeBase :=
  loadIndex { dimension := D, store := store, idMap := [], ntotal := 0, vdata := [] }

/-- `KnowledgeBase::exists` (lines 238-242): a point `Get`, true iff the
key is present. -/
def existsId (kb : KnowledgeBase) (id : String) : Bool :=
  (Store.get kb.store id).isSome

/-- `KnowledgeBase::size` (lines 244-246): returns `index_->ntotal`. -/
def size (kb : KnowledgeBase) : ℕ :=
  kb.ntotal

/-- `KnowledgeBase::addAndReturnId` (lines 97-126).  `genId` is the id
`generateId()` would produce, used when the caller-supplied id is empty;
`putOk` is the status of the RocksDB `Put` (line 116), which the code does
check.  Returns the id (empty string on failure, the C++ failure signal)
and the successor state.  The C++ then executes
`index_->add(1, memory.embedding.data())`, which copies `dimension_` floats
from the embedding buffer — there is no check that the embedding has length
`dimension_`; the model appends the raw embedding. -/
def addAndReturnId (kb : KnowledgeBase) (genId : String) (putOk : Bool)
    (m : Memory) : String × KnowledgeBase :=
  let id := if m.id = "" then genId else m.id
  if kb.existsId id then ("", kb)
  else if !putOk then ("", kb)
  else
    let rec_ : MemRecord :=
      { id := id, content := m.content, category := m.category
        timestamp := m.timestamp, embedding := some m.embedding }
    let store' := Store.put kb.store id (some rec_)
    (id, { kb with
            store := store'
            idMap := kb.idMap ++ [id]
            ntotal := kb.ntotal + 1
            vdata := kb.vdata ++ m.embedding })

/-- `KnowledgeBase::add` (lines 93-95): success iff `addAndReturnId`
returned a non-empty id. -/
def add (kb : KnowledgeBase) (genId : String) (putOk : Bool)
    (m : Memory) : Bool × KnowledgeBase :=
  let r := addAndReturnId kb genId putOk m
  (r.1 ≠ "", r.2)

/-- Squared L2 distance over the first `min` of the two lengths; both
arguments have length `D` wherever it is used. -/
def sqDist (a b : Vec) : ℚ :=
  ((a.zip b).map (fun p => (p.1 - p.2) ^ 2)).sum

/-- The vector stored at slot `s` of the flat index: floats
`s*D .. s*D + D - 1` of the contiguous buffer. -/
def slotVec (kb : KnowledgeBase) (s : ℕ) : Vec :=
  (kb.vdata.drop (s * kb.dimension)).take kb.dimension

/-- Modelled from the spec: `faiss::IndexFlatL2::search`, library code not
part of this repository's sources.  Per the spec's vector-index contract
(§2): "search(query, k) → [(slot, distance)] returning the k slots with
smallest squared L2 distance, ascending".  Modelled as sorting all slots by
squared L2 distance to the query, ascending, and taking the first `k`;
on ties the order produced by the index is unspecified. -/
def viSearch (kb : KnowledgeBase) (q : Vec) (k : ℕ) : List (ℕ × ℚ) :=
  let scored := (List.range kb.ntotal).map (fun s => (s, sqDist q (kb.slotVec s)))
  (scored.mergeSort (fun a b => a.2 ≤ b.2)).take k

/-- The retrieval loop of `search` (lines 145-168): for each (slot,
distance) pair, skip it when the slot is negative or at least
`id_map_.size()` (line 146); otherwise resolve the id, `Get` it from the
store, skip on a non-ok status or a decode failure, and otherwise emit a
result carrying the record fields and `score = distance`.  Slots are `Int`
because FAISS reports slots as signed `idx_t`. -/
def emitResult (kb : KnowledgeBase) (p : Int × ℚ) : Option SearchResult :=
  if p.1 < 0 ∨ (kb.idMap.length : Int) ≤ p.1 then none
  else
    let id := kb.idMap.getD p.1.toNat ""
    match Store.get kb.store id with
    | some (some r) =>
        some { id := id, content := r.content, category := r.category,
               score := p.2, timestamp := r.timestamp }
    | _ => none

/-- The retrieval loop over the pairs the index returned. -/
def retrieve (kb : KnowledgeBase) (pairs : List (Int × ℚ)) : List SearchResult :=
  pairs.filterMap kb.emitResult

/-- `KnowledgeBase::search` (lines 128-171): empty result on an empty
index; otherwise clamp `top_k` to `ntotal`, query the index, and run the
retrieval loop. -/
def search (kb : KnowledgeBase) (q : Vec) (topK : ℕ) : List SearchResult :=
  if kb.ntotal = 0 then []
  else
    let k := min topK kb.ntotal
    retrieve kb ((kb.viSearch q k).map (fun p => ((p.1 : Int), p.2)))

/-- `KnowledgeBase::update` (lines 173-203).  `now` is the wall-clock
timestamp taken at line 187; `putOk` is the status of the RocksDB `Put` at
line 192, which the code ignores.  `Get` failure (missing id) returns
false; a parse failure throws before the `Put` and is caught, returning
false with nothing written; otherwise the decoded record has `content`,
`embedding` and `timestamp` replaced and is put back, and the index is
rebuilt from the store (reset + clear + `loadIndex`). -/
def update (kb : KnowledgeBase) (now : Int) (putOk : Bool)
    (id content : String) (emb : Vec) : Bool × KnowledgeBase :=
  match Store.get kb.store id with
  | none => (false, kb)
  | some none => (false, kb)
  | some (some r) =>
      let r' := { r with content := content, embedding := some emb, timestamp := now }
      let store' := if putOk then Store.put kb.store id (some r') else kb.store
      (true, loadIndex { kb with store := store' })

/-- `KnowledgeBase::remove` (lines 205-219).  `delOk` is the status of the
RocksDB `Delete` (ok also when the key was absent); on ok the index is
rebuilt from the store. -/
def remove (kb : KnowledgeBase) (delOk : Bool) (id : String) : Bool × KnowledgeBase :=
  if delOk then (true, loadIndex { kb with store := Store.del kb.store id })
  else (false, kb)

end KnowledgeBase

instance : Inhabited MemRecord :=
  ⟨{ id := "", content := "", category := "", timestamp := 0, embedding := none }⟩

/-- The embedding array of the decoded record stored at key `k`, when the
stored bytes decode and the field is an array; `none` otherwise. -/
def storedEmbedding (store : Store) (k : String) : Option Vec :=
  match Store.get store k with
  | some (some r) => r.embedding
  | _ => none

/-- Whether the bytes stored at key `k` decode to a record. -/
def decodes (store : Store) (k : String) : Bool :=
  match Store.get store k with
  | some (some _) => true
  | _ => false

/-- The decoded record at key `k` (meaningful only when `decodes`). -/
def recordAt (store : Store) (k : String) : MemRecord :=
  match Store.get store k with
  | some (some r) => r
  | _ => default

/-- Dimension discipline of one stored value: when it decodes and carries
an embedding array, that array has length `D`. -/
def valDimOk (D : ℕ) (v : Val) : Bool :=
  match v with
  | some r =>
    match r.embedding with
    | some e => e.length == D
    | none => true
  | none => true

namespace KnowledgeBase

/-- The engine's representation invariant (spec I1-I4 restricted to the
model): store keys are unique; every stored embedding has length `D`; the
slot table and the index agree on the element count; the flat buffer holds
exactly `ntotal * D` floats; and the vector at each slot equals the
embedding of the record its slot-table id resolves to. -/
def inv (kb : KnowledgeBase) : Prop :=
  (kb.store.map Prod.fst).Nodup ∧
  (∀ kv ∈ kb.store, valDimOk kb.dimension kv.2 = true) ∧
  kb.idMap.length = kb.ntotal ∧
  kb.vdata.length = kb.ntotal * kb.dimension ∧
  ∀ s, s < kb.idMap.length →
    storedEmbedding kb.store (kb.idMap.getD s "") = some (kb.slotVec s)

instance (kb : KnowledgeBase) : Decidable kb.inv := by
  unfold inv; infer_instance

/-- The result `search` emits for a slot/distance pair whose slot is in
range and whose record decodes. -/
def mkResult (kb : KnowledgeBase) (p : ℕ × ℚ) : SearchResult :=
  let id := kb.idMap.getD p.1 ""
  let r := recordAt kb.store id
  { id := id, content := r.content, category := r.category,
    score := p.2, timestamp := r.timestamp }

end KnowledgeBase

/-- One public mutating engine call, with its environmental inputs
(generated id, wall clock, storage statuses) made explicit. -/
inductive Op where
  | addOp (genId : String) (putOk : Bool) (m : Memory)
  | updateOp (now : Int) (putOk : Bool) (id content : String) (emb : Vec)
  | removeOp (delOk : Bool) (id : String)

/-- Run one call for its state effect. -/
def applyOp (kb : KnowledgeBase) : Op → KnowledgeBase
  | .addOp g p m => (kb.addAndReturnId g p m).2
  | .updateOp now p id c e => (kb.update now p id c e).2
  | .removeOp d id => (kb.remove d id).2

/-- Run a call sequence. -/
def applyOps (kb : KnowledgeBase) (ops : List Op) : KnowledgeBase :=
  ops.foldl applyOp kb

/-- The call supplies embeddings of the configured dimension (the claim's
hypothesis on `add` and `update` inputs). -/
def Op.dimOk (D : ℕ) : Op → Bool
  | .addOp _ _ m => m.embedding.length == D
  | .updateOp _ _ _ _ e => e.length == D
  | .removeOp _ _ => true

theorem Store.get_put_self (s : Store) (k : String) (v : Val) :
    Store.get (Store.put s k v) k = some v := by
  induction s with
  | nil => simp [Store.put, Store.get]
  | cons kv rest ih =>
      obtain ⟨k₀, v₀⟩ := kv
      by_cases h : k = k₀
      · simp [Store.put, Store.get, h]
      · simp [Store.put, Store.get, h, ih]

theorem Store.get_put_other (s : Store) (k k' : String) (v : Val) (h : k' ≠ k) :
    Store.get (Store.put s k v) k' = Store.get s k' := by
  induction s with
  | nil => simp [Store.put, Store.get, h]
  | cons kv rest ih =>
      obtain ⟨k₀, v₀⟩ := kv
      by_cases hk : k = k₀
      · subst hk
        simp [Store.put, Store.get, h]
      · by_cases hk' : k' = k₀ <;> simp [Store.put, Store.get, hk, hk', ih]

theorem Store.mem_put {s : Store} {k : String} {v : Val} {kv : String × Val}
    (h : kv ∈ Store.put s k v) : kv = (k, v) ∨ kv ∈ s := by
  induction s with
  | nil => simpa [Store.put] using h
  | cons kv₀ rest ih =>
      obtain ⟨k₀, v₀⟩ := kv₀
      by_cases hk : k = k₀
      · simp [Store.put, hk] at h
        rcases h with h | h
        · exact Or.inl (by simp [h, hk])
        · exact Or.inr (List.mem_cons_of_mem _ h)
      · simp [Store.put, hk] at h
        rcases h with h | h
        · exact Or.inr (by simp [h])
        · rcases ih h with h' | h'
          · exact Or.inl h'
          · exact Or.inr (List.mem_cons_of_mem _ h')

theorem Store.not_mem_keys_of_get_eq_none {s : Store} {k : String}
    (h : Store.get s k = none) : k ∉ s.map Prod.fst := by
  induction s with
  | nil => simp
  | cons kv rest ih =>
      obtain ⟨k₀, v₀⟩ := kv
      by_cases hk : k = k₀
      · simp [Store.get, hk] at h
      · simp [Store.get, hk] at h
        simpa [hk] using ih h

theorem Store.put_of_get_eq_none {s : Store} {k : String} (v : Val)
    (h : Store.get s k = none) : Store.put s k v = s ++ [(k, v)] := by
  induction s with
  | nil => simp [Store.put]
  | cons kv rest ih =>
      obtain ⟨k₀, v₀⟩ := kv
      by_cases hk : k = k₀
      · simp [Store.get, hk] at h
      · simp [Store.get, hk] at h
        simp [Store.put, hk, ih h]

theorem Store.get_of_mem {s : Store} {kv : String × Val}
    (hnd : (s.map Prod.fst).Nodup) (h : kv ∈ s) : Store.get s kv.1 = some kv.2 := by
  induction s with
  | nil => simp at h
  | cons kv₀ rest ih =>
      obtain ⟨k₀, v₀⟩ := kv₀
      simp only [List.map_cons, List.nodup_cons] at hnd
      rcases List.mem_cons.1 h with h' | h'
      · simp [h', Store.get]
      · have hne : kv.1 ≠ k₀ := by
          intro he
          exact hnd.1 (he ▸ List.mem_map_of_mem Prod.fst h')
        simp [Store.get, hne, ih hnd.2 h']

theorem Store.fst_mem_put {s : Store} {k : String} {v : Val} {x : String}
    (h : x ∈ (Store.put s k v).map Prod.fst) : x = k ∨ x ∈ s.map Prod.fst := by
  rcases List.mem_map.1 h with ⟨kv, hmem, hx⟩
  rcases Store.mem_put hmem with h' | h'
  · exact Or.inl (by simp [← hx, h'])
  · exact Or.inr (hx ▸ List.mem_map_of_mem Prod.fst h')

theorem Store.nodup_put {s : Store} (k : String) (v : Val)
    (h : (s.map Prod.fst).Nodup) : ((Store.put s k v).map Prod.fst).Nodup := by
  induction s with
  | nil => simp [Store.put]
  | cons kv₀ rest ih =>
      obtain ⟨k₀, v₀⟩ := kv₀
      simp only [List.map_cons, List.nodup_cons] at h
      by_cases hk : k = k₀
      · exact hk ▸ by simp [Store.put, hk, h.1, h.2]
      · have hput : Store.put ((k₀, v₀) :: rest) k v = (k₀, v₀) :: Store.put rest k v := by
          simp [Store.put, hk]
        rw [hput, List.map_cons, List.nodup_cons]
        refine ⟨?_, ih h.2⟩
        intro hmem
        rcases Store.fst_mem_put hmem with h' | h'
        · exact hk h'.symm
        · exact h.1 h'

theorem Store.del_sublist (s : Store) (k : String) : (Store.del s k).Sublist s :=
  List.filter_sublist s

theorem Store.nodup_del {s : Store} (k : String)
    (h : (s.map Prod.fst).Nodup) : ((Store.del s k).map Prod.fst).Nodup :=
  List.Nodup.sublist (List.Sublist.map Prod.fst (Store.del_sublist s k)) h

theorem Store.mem_of_mem_del {s : Store} {k : String} {kv : String × Val}
    (h : kv ∈ Store.del s k) : kv ∈ s :=
  (List.mem_filter.1 h).1

theorem flatten_length_uniform (L : List Vec) (D : ℕ)
    (h : ∀ l ∈ L, l.length = D) : L.flatten.length = L.length * D := by
  induction L with
  | nil => simp
  | cons a L ih =>
      have ha := h a (List.mem_cons_self a L)
      have hL := ih (fun l hl => h l (List.mem_cons_of_mem a hl))
      simp only [List.flatten_cons, List.length_append, List.length_cons, ha, hL]
      ring

theorem flatten_slot (L : List Vec) (D : ℕ)
    (h : ∀ l ∈ L, l.length = D) :
    ∀ s, s < L.length → ((L.flatten.drop (s * D)).take D) = L.getD s [] := by
  induction L with
  | nil => intro s hs; simp at hs
  | cons a L ih =>
      intro s hs
      have ha := h a (List.mem_cons_self a L)
      cases s with
      | zero =>
          simp only [Nat.zero_mul, List.drop_zero, List.flatten_cons]
          rw [List.take_append_of_le_length (by omega), List.take_of_length_le (by omega)]
          rfl
      | succ s =>
          have hL := fun l hl => h l (List.mem_cons_of_mem a hl)
          have hdrop : (a :: L).flatten.drop ((s + 1) * D) = L.flatten.drop (s * D) := by
            have : (s + 1) * D = a.length + s * D := by rw [ha]; ring
            rw [List.flatten_cons, this, List.drop_append]
          rw [hdrop]
          simpa using ih hL s (by simpa using hs)

theorem getD_concat_self {α : Type} (l : List α) (a d : α) :
    (l ++ [a]).getD l.length d = a := by
  induction l with
  | nil => rfl
  | cons b l ih => simp only [List.cons_append, List.getD, List.get?_cons_succ]; exact ih

theorem survivors_spec {store : Store} {ke : String × Vec}
    (h : ke ∈ KnowledgeBase.survivors store) :
    ∃ r : MemRecord, (ke.1, some r) ∈ store ∧ r.embedding = some ke.2 ∧
      startsWithStr ke.1 "meta:" = false ∧ startsWithStr ke.1 "pref:" = false := by
  rw [KnowledgeBase.survivors, List.mem_filterMap] at h
  obtain ⟨⟨k, v⟩, hmem, hf⟩ := h
  by_cases h1 : startsWithStr k "meta:"
  · simp [h1] at hf
  by_cases h2 : startsWithStr k "pref:"
  · simp [h1, h2] at hf
  cases v with
  | none => simp [h1, h2] at hf
  | some r =>
      cases he : r.embedding with
      | none => simp [h1, h2, he] at hf
      | some e =>
          simp only [h1, h2, he, Bool.false_eq_true, if_false, Option.some.injEq] at hf
          refine ⟨r, ?_, ?_, ?_, ?_⟩
          · rw [← hf]; exact hmem
          · rw [← hf, he]
          · rw [← hf]; simpa using h1
          · rw [← hf]; simpa using h2

theorem survivors_length_uniform {store : Store} {D : ℕ}
    (hdim : ∀ kv ∈ store, valDimOk D kv.2 = true) :
    ∀ ke ∈ KnowledgeBase.survivors store, (ke.2 : Vec).length = D := by
  intro ke hke
  obtain ⟨r, hmem, hemb, -, -⟩ := survivors_spec hke
  have := hdim (ke.1, some r) hmem
  simpa [valDimOk, hemb] using this

theorem loadIndex_inv (kb : KnowledgeBase) (hD : 0 < kb.dimension)
    (hnd : (kb.store.map Prod.fst).Nodup)
    (hdim : ∀ kv ∈ kb.store, valDimOk kb.dimension kv.2 = true) :
    kb.loadIndex.inv := by
  have hsl : ∀ ke ∈ KnowledgeBase.survivors kb.store, (ke.2 : Vec).length = kb.dimension :=
    survivors_length_uniform hdim
  have hmaplen : ∀ l ∈ (KnowledgeBase.survivors kb.store).map Prod.snd,
      l.length = kb.dimension := by
    intro l hl
    rcases List.mem_map.1 hl with ⟨ke, hke, rfl⟩
    exact hsl ke hke
  have hflatlen : ((KnowledgeBase.survivors kb.store).map Prod.snd).flatten.length =
      (KnowledgeBase.survivors kb.store).length * kb.dimension := by
    rw [flatten_length_uniform _ _ hmaplen, List.length_map]
  by_cases hemp : ((KnowledgeBase.survivors kb.store).map Prod.snd).flatten.isEmpty
  · -- empty buffer: with D > 0 there are no survivors at all
    have hnil : ((KnowledgeBase.survivors kb.store).map Prod.snd).flatten = [] :=
      List.isEmpty_iff.1 hemp
    have hzero : (KnowledgeBase.survivors kb.store).length = 0 := by
      have := hflatlen
      rw [hnil] at this
      simpa [Nat.mul_eq_zero, Nat.pos_iff_ne_zero.1 hD] using this.symm
    refine ⟨hnd, hdim, ?_, ?_, ?_⟩
    · simp [KnowledgeBase.loadIndex, hemp, hzero]
    · simp [KnowledgeBase.loadIndex, hemp, hnil]
    · intro s hs
      simp only [KnowledgeBase.loadIndex, hemp] at hs
      simp only [List.length_map, hzero] at hs
      omega
  · refine ⟨hnd, hdim, ?_, ?_, ?_⟩
    · simp [KnowledgeBase.loadIndex, hemp]
    · simp only [KnowledgeBase.loadIndex, hemp, if_false]
      simpa using hflatlen
    · intro s hs
      have hs' : s < (KnowledgeBase.survivors kb.store).length := by
        simpa [KnowledgeBase.loadIndex] using hs
      -- the slot id is the first component of the s-th survivor
      have hid : ((KnowledgeBase.survivors kb.store).map Prod.fst).getD s "" =
          ((KnowledgeBase.survivors kb.store).getD s ("", [])).1 := by
        rw [List.getD_eq_getElem _ _ (by simpa using hs'),
            List.getD_eq_getElem _ _ hs', List.getElem_map]
      have hvec : ((KnowledgeBase.survivors kb.store).map Prod.snd).getD s [] =
          ((KnowledgeBase.survivors kb.store).getD s ("", [])).2 := by
        rw [List.getD_eq_getElem _ _ (by simpa using hs'),
            List.getD_eq_getElem _ _ hs', List.getElem_map]
      have hke : (KnowledgeBase.survivors kb.store).getD s ("", []) ∈
          KnowledgeBase.survivors kb.store := by
        rw [List.getD_eq_getElem _ _ hs']
        exact List.getElem_mem hs'
      obtain ⟨r, hmem, hemb, -, -⟩ := survivors_spec hke
      have hget : Store.get kb.store
          ((KnowledgeBase.survivors kb.store).getD s ("", [])).1 = some (some r) :=
        Store.get_of_mem hnd hmem
      simp only [KnowledgeBase.loadIndex, KnowledgeBase.slotVec]
      rw [hid, flatten_slot _ kb.dimension hmaplen s (by simpa using hs'), hvec]
      simp only [storedEmbedding, hget, hemb]

theorem addAndReturnId_inv (kb : KnowledgeBase) (genId : String) (putOk : Bool)
    (m : Memory) (hinv : kb.inv) (hlen : m.embedding.length = kb.dimension) :
    ((kb.addAndReturnId genId putOk m).2).inv := by
  obtain ⟨hnd, hdim, hcount, hvlen, hslots⟩ := hinv
  by_cases hex : kb.existsId (if m.id = "" then genId else m.id)
  · have heq : (kb.addAndReturnId genId putOk m).2 = kb := by
      simp [KnowledgeBase.addAndReturnId, hex]
    rw [heq]
    exact ⟨hnd, hdim, hcount, hvlen, hslots⟩
  by_cases hput : putOk
  case neg =>
    have heq : (kb.addAndReturnId genId putOk m).2 = kb := by
      simp [KnowledgeBase.addAndReturnId, hex, hput]
    rw [heq]
    exact ⟨hnd, hdim, hcount, hvlen, hslots⟩
  case pos =>
    have hgetnone : Store.get kb.store (if m.id = "" then genId else m.id) = none := by
      simpa [KnowledgeBase.existsId, Option.not_isSome_iff_eq_none] using hex
    have heq : (kb.addAndReturnId genId putOk m).2 =
        { kb with
          store := Store.put kb.store (if m.id = "" then genId else m.id)
            (some { id := (if m.id = "" then genId else m.id), content := m.content,
                    category := m.category, timestamp := m.timestamp,
                    embedding := some m.embedding }),
          idMap := kb.idMap ++ [if m.id = "" then genId else m.id],
          ntotal := kb.ntotal + 1,
          vdata := kb.vdata ++ m.embedding } := by
      simp [KnowledgeBase.addAndReturnId, hex, hput]
    rw [heq]
    refine ⟨Store.nodup_put _ _ hnd, ?_, ?_, ?_, ?_⟩
    · intro kv hkv
      rcases Store.mem_put hkv with h' | h'
      · simp [h', valDimOk, hlen]
      · exact hdim kv h'
    · simp [hcount]
    · simp only [List.length_append, List.length_cons, List.length_nil, hvlen, hlen]
      ring
    · intro s hs
      simp only [List.length_append, List.length_cons, List.length_nil] at hs
      rcases Nat.lt_succ_iff_lt_or_eq.1 (by omega : s < kb.idMap.length + 1) with hlt | heqs
      · -- an old slot keeps its id, its vector and its record
        have hslot := hslots s hlt
        have hkey : (kb.idMap ++ [if m.id = "" then genId else m.id]).getD s "" =
            kb.idMap.getD s "" := List.getD_append _ _ _ s hlt
        have hne : kb.idMap.getD s "" ≠ (if m.id = "" then genId else m.id) := by
          intro hcontra
          rw [hcontra] at hslot
          simp [storedEmbedding, hgetnone] at hslot
        have hvec : (KnowledgeBase.slotVec
            { kb with
              store := Store.put kb.store (if m.id = "" then genId else m.id)
                (some { id := (if m.id = "" then genId else m.id), content := m.content,
                        category := m.category, timestamp := m.timestamp,
                        embedding := some m.embedding }),
              idMap := kb.idMap ++ [if m.id = "" then genId else m.id],
              ntotal := kb.ntotal + 1,
              vdata := kb.vdata ++ m.embedding } s) = kb.slotVec s := by
          simp only [KnowledgeBase.slotVec]
          have h1 : s * kb.dimension ≤ kb.vdata.length := by
            rw [hvlen]
            have : s + 1 ≤ kb.ntotal := by omega
            calc s * kb.dimension ≤ kb.ntotal * kb.dimension :=
              Nat.mul_le_mul_right _ (by omega)
            _ = kb.ntotal * kb.dimension := rfl
          have h2 : kb.dimension ≤ (kb.vdata.drop (s * kb.dimension)).length := by
            rw [List.length_drop, hvlen]
            have hsucc : (s + 1) * kb.dimension ≤ kb.ntotal * kb.dimension :=
              Nat.mul_le_mul_right _ (by omega)
            have : (s + 1) * kb.dimension = s * kb.dimension + kb.dimension := by ring
            omega
          rw [List.drop_append_of_le_length h1, List.take_append_of_le_length h2]
        rw [hkey, hvec]
        simp only [storedEmbedding] at hslot ⊢
        rw [Store.get_put_other _ _ _ _ hne]
        exact hslot
      · -- the new slot: its id is the new id, its vector the new embedding
        subst heqs
        have hkey : (kb.idMap ++ [if m.id = "" then genId else m.id]).getD
            kb.idMap.length "" = (if m.id = "" then genId else m.id) :=
          getD_concat_self _ _ _
        have hvec : (KnowledgeBase.slotVec
            { kb with
              store := Store.put kb.store (if m.id = "" then genId else m.id)
                (some { id := (if m.id = "" then genId else m.id), content := m.content,
                        category := m.category, timestamp := m.timestamp,
                        embedding := some m.embedding }),
              idMap := kb.idMap ++ [if m.id = "" then genId else m.id],
              ntotal := kb.ntotal + 1,
              vdata := kb.vdata ++ m.embedding } kb.idMap.length) = m.embedding := by
          simp only [KnowledgeBase.slotVec]
          have h1 : kb.idMap.length * kb.dimension = kb.vdata.length := by
            rw [hvlen, hcount]
          rw [h1, List.drop_left, List.take_of_length_le (by rw [hlen])]
        rw [hkey, hvec]
        simp only [storedEmbedding, Store.get_put_self]

theorem update_inv (kb : KnowledgeBase) (now : Int) (putOk : Bool)
    (id c : String) (emb : Vec) (hD : 0 < kb.dimension) (hinv : kb.inv)
    (hlen : emb.length = kb.dimension) :
    ((kb.update now putOk id c emb).2).inv := by
  obtain ⟨hnd, hdim, hcount, hvlen, hslots⟩ := hinv
  cases hget : Store.get kb.store id with
  | none =>
      have heq : (kb.update now putOk id c emb).2 = kb := by
        simp [KnowledgeBase.update, hget]
      rw [heq]
      exact ⟨hnd, hdim, hcount, hvlen, hslots⟩
  | some v =>
      cases v with
      | none =>
          have heq : (kb.update now putOk id c emb).2 = kb := by
            simp [KnowledgeBase.update, hget]
          rw [heq]
          exact ⟨hnd, hdim, hcount, hvlen, hslots⟩
      | some r =>
          by_cases hput : putOk
          · have heq : (kb.update now putOk id c emb).2 = KnowledgeBase.loadIndex { kb with store := Store.put kb.store id (some { r with content := c, embedding := some emb, timestamp := now }) } := by
              simp [KnowledgeBase.update, hget, hput]
            rw [heq]
            exact loadIndex_inv _ hD (Store.nodup_put _ _ hnd)
              (by
                intro kv hkv
                rcases Store.mem_put hkv with h' | h'
                · simp [h', valDimOk, hlen]
                · exact hdim kv h')
          · have heq : (kb.update now putOk id c emb).2 = KnowledgeBase.loadIndex kb := by
              simp [KnowledgeBase.update, hget, hput]
            rw [heq]
            exact loadIndex_inv _ hD hnd hdim

theorem remove_inv (kb : KnowledgeBase) (delOk : Bool) (id : String)
    (hD : 0 < kb.dimension) (hinv : kb.inv) :
    ((kb.remove delOk id).2).inv := by
  obtain ⟨hnd, hdim, hcount, hvlen, hslots⟩ := hinv
  by_cases hdel : delOk
  · have heq : (kb.remove delOk id).2 =
        KnowledgeBase.loadIndex { kb with store := Store.del kb.store id } := by
      simp [KnowledgeBase.remove, hdel]
    rw [heq]
    exact loadIndex_inv _ hD (Store.nodup_del _ hnd)
      (fun kv hkv => hdim kv (Store.mem_of_mem_del hkv))
  · have heq : (kb.remove delOk id).2 = kb := by
      simp [KnowledgeBase.remove, hdel]
    rw [heq]
    exact ⟨hnd, hdim, hcount, hvlen, hslots⟩

theorem loadIndex_dimension (kb : KnowledgeBase) :
    kb.loadIndex.dimension = kb.dimension := rfl

theorem applyOp_dimension (kb : KnowledgeBase) (op : Op) :
    (applyOp kb op).dimension = kb.dimension := by
  cases op with
  | addOp g p m =>
      by_cases hex : kb.existsId (if m.id = "" then g else m.id) <;>
        by_cases hp : p <;>
          simp [applyOp, KnowledgeBase.addAndReturnId, hex, hp]
  | updateOp now p id c e =>
      cases hget : Store.get kb.store id with
      | none => simp [applyOp, KnowledgeBase.update, hget]
      | some v =>
          cases v with
          | none => simp [applyOp, KnowledgeBase.update, hget]
          | some r =>
              simp [applyOp, KnowledgeBase.update, hget, KnowledgeBase.loadIndex]
  | removeOp d id =>
      by_cases hd : d <;> simp [applyOp, KnowledgeBase.remove, hd, KnowledgeBase.loadIndex]

theorem applyOp_inv (kb : KnowledgeBase) (op : Op) (hD : 0 < kb.dimension)
    (hinv : kb.inv) (hop : op.dimOk kb.dimension = true) :
    (applyOp kb op).inv := by
  cases op with
  | addOp g p m =>
      exact addAndReturnId_inv kb g p m hinv (by simpa [Op.dimOk] using hop)
  | updateOp now p id c e =>
      exact update_inv kb now p id c e hD hinv (by simpa [Op.dimOk] using hop)
  | removeOp d id =>
      exact remove_inv kb d id hD hinv

theorem applyOps_inv (kb : KnowledgeBase) (ops : List Op) (hD : 0 < kb.dimension)
    (hinv : kb.inv) (hops : ∀ op ∈ ops, op.dimOk kb.dimension = true) :
    (applyOps kb ops).inv := by
  induction ops generalizing kb with
  | nil => exact hinv
  | cons op ops ih =>
      have hstep : applyOps kb (op :: ops) = applyOps (applyOp kb op) ops := rfl
      rw [hstep]
      have hdim := applyOp_dimension kb op
      refine ih (applyOp kb op) (by rw [hdim]; exact hD) ?_ ?_
      · exact applyOp_inv kb op hD hinv (hops op (List.mem_cons_self op ops))
      · intro o ho
        rw [hdim]
        exact hops o (List.mem_cons_of_mem op ho)

/-- C3: after any sequence of `add`, `update`, `remove` calls in which
every supplied embedding has the configured length `D`, starting from a
state satisfying the representation invariant, `size()` equals the slot
table's length, which equals the index's count, and the vector stored at
every slot `s` of the index equals the embedding array of the record whose
id is `ST[s]`. -/
theorem C3_size_slots_vectors_agree_after_ops (kb : KnowledgeBase) (ops : List Op)
    (hD : 0 < kb.dimension) (hinv : kb.inv)
    (hops : ∀ op ∈ ops, op.dimOk kb.dimension = true) :
    (applyOps kb ops).size = (applyOps kb ops).idMap.length ∧
    (applyOps kb ops).idMap.length = (applyOps kb ops).ntotal ∧
    ∀ s, s < (applyOps kb ops).idMap.length →
      storedEmbedding (applyOps kb ops).store ((applyOps kb ops).idMap.getD s "") =
        some ((applyOps kb ops).slotVec s) := by
  obtain ⟨-, -, hcount, -, hslots⟩ := applyOps_inv kb ops hD hinv hops
  exact ⟨by simp [KnowledgeBase.size, hcount], hcount, hslots⟩

def kbC3 : KnowledgeBase := KnowledgeBase.openKB 2 []

def opsC3 : List Op :=
  [ .addOp "" true { id := "a", content := "ca", category := "g", timestamp := 1, embedding := [1, 0] },
    .addOp "" true { id := "b", content := "cb", category := "g", timestamp := 2, embedding := [0, 1] },
    .updateOp 5 true "a" "ca2" [2, 2],
    .removeOp true "b" ]

/-- Witness for C3 at a concrete state and call sequence. -/
theorem C3_size_slots_vectors_agree_after_ops_witness :
    (0 < kbC3.dimension ∧ kbC3.inv ∧ (∀ op ∈ opsC3, op.dimOk kbC3.dimension = true)) ∧
    ((applyOps kbC3 opsC3).size = (applyOps kbC3 opsC3).idMap.length ∧
     (applyOps kbC3 opsC3).idMap.length = (applyOps kbC3 opsC3).ntotal ∧
     ∀ s, s < (applyOps kbC3 opsC3).idMap.length →
       storedEmbedding (applyOps kbC3 opsC3).store ((applyOps kbC3 opsC3).idMap.getD s "") =
         some ((applyOps kbC3 opsC3).slotVec s)) :=
  ⟨⟨by decide, by decide, by decide⟩,
   C3_size_slots_vectors_agree_after_ops kbC3 opsC3 (by decide) (by decide) (by decide)⟩

theorem filterMap_eq_map_of_forall {α β : Type} (f : α → Option β) (g : α → β)
    (l : List α) (h : ∀ a ∈ l, f a = some (g a)) : l.filterMap f = l.map g := by
  induction l with
  | nil => rfl
  | cons a l ih =>
      rw [List.filterMap_cons, h a (List.mem_cons_self a l), List.map_cons,
          ih (fun x hx => h x (List.mem_cons_of_mem a hx))]

theorem emitResult_eq_mkResult (kb : KnowledgeBase) (p : ℕ × ℚ)
    (hp : p.1 < kb.idMap.length)
    (hdec : decodes kb.store (kb.idMap.getD p.1 "") = true) :
    kb.emitResult ((p.1 : Int), p.2) = some (kb.mkResult p) := by
  have hneg : ¬(((p.1 : Int) < 0) ∨ ((kb.idMap.length : Int) ≤ (p.1 : Int))) := by
    push_neg
    exact ⟨Int.ofNat_nonneg p.1, by exact_mod_cast hp⟩
  simp only [KnowledgeBase.emitResult, hneg, if_false, Int.toNat_ofNat]
  unfold decodes at hdec
  cases hget : Store.get kb.store (kb.idMap.getD p.1 "") with
  | none => rw [hget] at hdec; simp at hdec
  | some v =>
      cases v with
      | none => rw [hget] at hdec; simp at hdec
      | some r =>
          simp only [KnowledgeBase.mkResult, recordAt]
          rw [hget]

theorem viSearch_mem (kb : KnowledgeBase) (q : Vec) (k : ℕ) {p : ℕ × ℚ}
    (hp : p ∈ kb.viSearch q k) :
    p.1 < kb.ntotal ∧ p.2 = KnowledgeBase.sqDist q (kb.slotVec p.1) := by
  have h1 : p ∈ (((List.range kb.ntotal).map
      (fun s => (s, KnowledgeBase.sqDist q (kb.slotVec s)))).mergeSort (fun a b => a.2 ≤ b.2)) :=
    (List.take_sublist _ _).subset hp
  have h2 := (List.mergeSort_perm _ _).mem_iff.1 h1
  rcases List.mem_map.1 h2 with ⟨s, hs, rfl⟩
  exact ⟨List.mem_range.1 hs, rfl⟩

theorem viSearch_length (kb : KnowledgeBase) (q : Vec) (k : ℕ) :
    (kb.viSearch q k).length = min k kb.ntotal := by
  simp [KnowledgeBase.viSearch, List.length_take, List.length_mergeSort]

theorem viSearch_sorted (kb : KnowledgeBase) (q : Vec) (k : ℕ) :
    List.Pairwise (fun a b : ℕ × ℚ => a.2 ≤ b.2) (kb.viSearch q k) := by
  have htrans : ∀ a b c : ℕ × ℚ, (decide (a.2 ≤ b.2)) = true →
      (decide (b.2 ≤ c.2)) = true → (decide (a.2 ≤ c.2)) = true := by
    intro a b c hab hbc
    simp only [decide_eq_true_eq] at *
    exact le_trans hab hbc
  have htotal : ∀ a b : ℕ × ℚ, ((decide (a.2 ≤ b.2)) || (decide (b.2 ≤ a.2))) = true := by
    intro a b
    simpa using le_total a.2 b.2
  have hs := List.sorted_mergeSort htrans htotal
    ((List.range kb.ntotal).map (fun s => (s, KnowledgeBase.sqDist q (kb.slotVec s))))
  have hp : List.Pairwise (fun a b : ℕ × ℚ => (decide (a.2 ≤ b.2)) = true)
      (kb.viSearch q k) :=
    List.Pairwise.sublist (List.take_sublist _ _) hs
  exact hp.imp (fun h => by simpa using h)

theorem search_eq_map (kb : KnowledgeBase) (q : Vec) (topK : ℕ)
    (hn : kb.ntotal ≠ 0)
    (hlen : kb.ntotal ≤ kb.idMap.length)
    (hdec : ∀ id ∈ kb.idMap, decodes kb.store id = true) :
    kb.search q topK = (kb.viSearch q (min topK kb.ntotal)).map kb.mkResult := by
  simp only [KnowledgeBase.search, hn, if_false]
  rw [KnowledgeBase.retrieve, List.filterMap_map]
  apply filterMap_eq_map_of_forall
  intro p hp
  obtain ⟨h1, -⟩ := viSearch_mem kb q _ hp
  have hplt : p.1 < kb.idMap.length := lt_of_lt_of_le h1 hlen
  have hkey : kb.idMap.getD p.1 "" ∈ kb.idMap := by
    rw [List.getD_eq_getElem _ _ hplt]
    exact List.getElem_mem hplt
  have := emitResult_eq_mkResult kb p hplt (hdec _ hkey)
  simpa [Function.comp] using this

/-- C6: on any state whose slot table covers the index and whose indexed
records all decode, search on an empty index returns the empty list, and
otherwise returns exactly `min K ntotal` results, ordered by non-decreasing
squared L2 distance to the query, each scored with the squared L2 distance
between the query and the vector stored at its slot. -/
theorem C6_search_count_order_scores (kb : KnowledgeBase) (q : Vec) (K : ℕ)
    (hK : 1 ≤ K)
    (hlen : kb.ntotal ≤ kb.idMap.length)
    (hdec : ∀ id ∈ kb.idMap, decodes kb.store id = true) :
    (kb.ntotal = 0 → kb.search q K = []) ∧
    (kb.search q K).length = min K kb.ntotal ∧
    List.Pairwise (fun a b : SearchResult => a.score ≤ b.score) (kb.search q K) ∧
    ∀ res ∈ kb.search q K, ∃ s, s < kb.ntotal ∧
      res.score = KnowledgeBase.sqDist q (kb.slotVec s) ∧ res.id = kb.idMap.getD s "" := by
  by_cases hn : kb.ntotal = 0
  · refine ⟨fun _ => by simp [KnowledgeBase.search, hn], ?_, ?_, ?_⟩
    · simp [KnowledgeBase.search, hn]
    · simp [KnowledgeBase.search, hn]
    · simp [KnowledgeBase.search, hn]
  · have hmap := search_eq_map kb q K hn hlen hdec
    refine ⟨fun h => absurd h hn, ?_, ?_, ?_⟩
    · rw [hmap, List.length_map, viSearch_length]
      omega
    · rw [hmap, List.pairwise_map]
      exact (viSearch_sorted kb q _).imp
        (fun h => by simpa [KnowledgeBase.mkResult] using h)
    · intro res hres
      rw [hmap] at hres
      rcases List.mem_map.1 hres with ⟨p, hp, rfl⟩
      obtain ⟨h1, h2⟩ := viSearch_mem kb q _ hp
      exact ⟨p.1, h1, by simp [KnowledgeBase.mkResult, h2],
        by simp [KnowledgeBase.mkResult]⟩

def recC6a : MemRecord :=
  { id := "a", content := "ca", category := "g", timestamp := 1, embedding := some [1, 0] }

def recC6b : MemRecord :=
  { id := "b", content := "cb", category := "g", timestamp := 2, embedding := some [0, 1] }

def kbC6 : KnowledgeBase := KnowledgeBase.openKB 2 [("a", some recC6a), ("b", some recC6b)]

/-- Witness for C6 on a two-record state with K larger than the store. -/
theorem C6_search_count_order_scores_witness :
    (1 ≤ 5 ∧ kbC6.ntotal ≤ kbC6.idMap.length ∧
      (∀ id ∈ kbC6.idMap, decodes kbC6.store id = true)) ∧
    ((kbC6.ntotal = 0 → kbC6.search [1, 0] 5 = []) ∧
     (kbC6.search [1, 0] 5).length = min 5 kbC6.ntotal ∧
     List.Pairwise (fun a b : SearchResult => a.score ≤ b.score) (kbC6.search [1, 0] 5) ∧
     ∀ res ∈ kbC6.search [1, 0] 5, ∃ s, s < kbC6.ntotal ∧
       res.score = KnowledgeBase.sqDist [1, 0] (kbC6.slotVec s) ∧
       res.id = kbC6.idMap.getD s "") :=
  ⟨⟨by decide, by decide, by decide⟩,
   C6_search_count_order_scores kbC6 [1, 0] 5 (by decide) (by decide) (by decide)⟩

def kbC1 : KnowledgeBase := KnowledgeBase.openKB 2 []

def mC1 : Memory :=
  { id := "a", content := "c", category := "misc", timestamp := 7, embedding := [1] }

/-- C1 counter-evidence: the code has no dimension check.  Adding a
length-1 embedding to a dimension-2 engine does not fail: it returns the
id, writes the record and grows the index and slot table (in the C++, the
index copy then reads past the end of the embedding buffer). -/
theorem C1_wrong_dimension_add_accepted :
    mC1.embedding.length ≠ kbC1.dimension ∧
    (kbC1.addAndReturnId "gen" true mC1).1 = "a" ∧
    (kbC1.addAndReturnId "gen" true mC1).2.size = 1 ∧
    (kbC1.addAndReturnId "gen" true mC1).2.existsId "a" = true ∧
    (kbC1.addAndReturnId "gen" true mC1).2.idMap = ["a"] ∧
    (kbC1.addAndReturnId "gen" true mC1).2.vdata = [1] := by decide

def recC2 : MemRecord :=
  { id := "a", content := "c", category := "g", timestamp := 0, embedding := some [1] }

def kbC2 : KnowledgeBase := KnowledgeBase.openKB 2 [("a", some recC2)]

/-- C2 counter-evidence: the load procedure performs no length check, so a
record whose embedding has length 1 ≠ D = 2 is not skipped: it contributes
its id to the slot table and its single float to the vector buffer, and the
buffer no longer holds `ntotal * D` floats (the C++ `index_->add` then
reads out of bounds). -/
theorem C2_wrong_length_record_kept_by_load :
    recC2.embedding = some [1] ∧ kbC2.dimension = 2 ∧
    kbC2.idMap = ["a"] ∧ kbC2.ntotal = 1 ∧ kbC2.vdata = [1] ∧
    kbC2.vdata.length ≠ kbC2.ntotal * kbC2.dimension := by decide

def recC4 : MemRecord :=
  { id := "a", content := "old", category := "g", timestamp := 0, embedding := some [1, 0] }

def kbC4 : KnowledgeBase := KnowledgeBase.openKB 2 [("a", some recC4)]

/-- C4 counter-evidence: `update` never inspects the status of the RocksDB
`Put` at line 192.  With the put failing (store unchanged), `update` on an
existing id still reports success. -/
theorem C4_update_reports_success_despite_put_failure :
    (kbC4.update 9 false "a" "new" [2, 2]).1 = true ∧
    (kbC4.update 9 false "a" "new" [2, 2]).2.store = kbC4.store := by decide

/-- C5: an `add` whose (non-empty) id is already present in the record
store returns the failure signal and leaves the entire state — record
store, slot table and vector index — exactly as it was. -/
theorem C5_duplicate_add_rejected_no_change (kb : KnowledgeBase) (genId : String)
    (putOk : Bool) (m : Memory) (hid : m.id ≠ "")
    (hdup : kb.existsId m.id = true) :
    kb.addAndReturnId genId putOk m = ("", kb) := by
  have hite : (if m.id = "" then genId else m.id) = m.id := if_neg hid
  simp [KnowledgeBase.addAndReturnId, hite, hdup]

def recC5 : MemRecord :=
  { id := "dup", content := "first", category := "g", timestamp := 0, embedding := some [1, 0] }

def kbC5 : KnowledgeBase := KnowledgeBase.openKB 2 [("dup", some recC5)]

def mC5 : Memory :=
  { id := "dup", content := "second", category := "g", timestamp := 1, embedding := [0, 1] }

/-- Witness for C5 at a concrete duplicate id. -/
theorem C5_duplicate_add_rejected_no_change_witness :
    (mC5.id ≠ "" ∧ kbC5.existsId mC5.id = true) ∧
    kbC5.addAndReturnId "g2" true mC5 = ("", kbC5) :=
  ⟨⟨by decide, by decide⟩,
   C5_duplicate_add_rejected_no_change kbC5 "g2" true mC5 (by decide) (by decide)⟩

/-- C7: a successful `update` of an existing decodable record rewrites only
`content`, `embedding` and `timestamp`; the stored record keeps its `id`
and `category` and stays under the same key, and no other key of the record
store is touched. -/
theorem C7_update_rewrites_only_content_embedding_timestamp (kb : KnowledgeBase)
    (now : Int) (id c : String) (emb : Vec) (r : MemRecord)
    (hget : Store.get kb.store id = some (some r)) :
    (kb.update now true id c emb).1 = true ∧
    (∃ r', Store.get (kb.update now true id c emb).2.store id = some (some r') ∧
      r'.id = r.id ∧ r'.category = r.category ∧
      r'.content = c ∧ r'.embedding = some emb ∧ r'.timestamp = now) ∧
    ∀ k, k ≠ id → Store.get (kb.update now true id c emb).2.store k = Store.get kb.store k := by
  have heq : (kb.update now true id c emb).2 = KnowledgeBase.loadIndex { kb with store := Store.put kb.store id (some { r with content := c, embedding := some emb, timestamp := now }) } := by
    simp [KnowledgeBase.update, hget]
  have hfst : (kb.update now true id c emb).1 = true := by
    simp [KnowledgeBase.update, hget]
  refine ⟨hfst, ?_, ?_⟩
  · refine ⟨{ r with content := c, embedding := some emb, timestamp := now },
      ?_, rfl, rfl, rfl, rfl, rfl⟩
    rw [heq]
    exact Store.get_put_self _ _ _
  · intro k hk
    rw [heq]
    exact Store.get_put_other _ _ _ _ hk

def recC7 : MemRecord :=
  { id := "u", content := "original", category := "notes", timestamp := 3, embedding := some [1, 0] }

def kbC7 : KnowledgeBase := KnowledgeBase.openKB 2 [("u", some recC7)]

/-- Witness for C7 at a concrete record. -/
theorem C7_update_rewrites_only_content_embedding_timestamp_witness :
    (Store.get kbC7.store "u" = some (some recC7)) ∧
    ((kbC7.update 9 true "u" "updated" [0, 1]).1 = true ∧
     (∃ r', Store.get (kbC7.update 9 true "u" "updated" [0, 1]).2.store "u" = some (some r') ∧
       r'.id = recC7.id ∧ r'.category = recC7.category ∧
       r'.content = "updated" ∧ r'.embedding = some [0, 1] ∧ r'.timestamp = 9) ∧
     ∀ k, k ≠ "u" → Store.get (kbC7.update 9 true "u" "updated" [0, 1]).2.store k =
       Store.get kbC7.store k) :=
  ⟨by decide,
   C7_update_rewrites_only_content_embedding_timestamp kbC7 9 "u" "updated" [0, 1] recC7 (by decide)⟩

/-- C8: the retrieval loop of `search` skips every slot the index reports
that is negative or at least the slot table's length: such a pair emits no
result, and the output over any pair list equals the output over only the
in-range pairs, so the slot-table lookup is always in range. -/
theorem C8_search_skips_out_of_range_slots (kb : KnowledgeBase) (pairs : List (Int × ℚ)) :
    (∀ p ∈ pairs, (p.1 < 0 ∨ (kb.idMap.length : Int) ≤ p.1) → kb.emitResult p = none) ∧
    kb.retrieve pairs = kb.retrieve
      (pairs.filter (fun p => decide (0 ≤ p.1 ∧ p.1 < (kb.idMap.length : Int)))) := by
  constructor
  · intro p hp hout
    simp [KnowledgeBase.emitResult, hout]
  · induction pairs with
    | nil => rfl
    | cons p pairs ih =>
        simp only [KnowledgeBase.retrieve] at ih ⊢
        by_cases hin : 0 ≤ p.1 ∧ p.1 < (kb.idMap.length : Int)
        · rw [List.filter_cons, if_pos (by simpa using hin),
              List.filterMap_cons, List.filterMap_cons, ih]
        · have hout : p.1 < 0 ∨ (kb.idMap.length : Int) ≤ p.1 := by omega
          have hemit : kb.emitResult p = none := by
            simp [KnowledgeBase.emitResult, hout]
          rw [List.filter_cons, if_neg (by simpa using hin),
              List.filterMap_cons, hemit, ih]

def recC8 : MemRecord :=
  { id := "a", content := "ca", category := "g", timestamp := 1, embedding := some [1, 0] }

def kbC8 : KnowledgeBase := KnowledgeBase.openKB 2 [("a", some recC8)]

/-- Witness for C8 on a concrete pair list containing a negative and a
too-large slot. -/
theorem C8_search_skips_out_of_range_slots_witness :
    (∀ p ∈ ([(-1, 0), (5, 1)] : List (Int × ℚ)),
      (p.1 < 0 ∨ (kbC8.idMap.length : Int) ≤ p.1) → kbC8.emitResult p = none) ∧
    kbC8.retrieve [(-1, 0), (5, 1)] = kbC8.retrieve
      (([(-1, 0), (5, 1)] : List (Int × ℚ)).filter
        (fun p => decide (0 ≤ p.1 ∧ p.1 < (kbC8.idMap.length : Int)))) :=
  C8_search_skips_out_of_range_slots kbC8 [(-1, 0), (5, 1)]

theorem search_result_id_mem (kb : KnowledgeBase) (q : Vec) (k : ℕ)
    {res : SearchResult} (hres : res ∈ kb.search q k) : res.id ∈ kb.idMap := by
  unfold KnowledgeBase.search at hres
  by_cases hn : kb.ntotal = 0
  · simp [hn] at hres
  · simp only [hn, if_false] at hres
    unfold KnowledgeBase.retrieve at hres
    rcases List.mem_filterMap.1 hres with ⟨p, hp, hemit⟩
    unfold KnowledgeBase.emitResult at hemit
    by_cases hout : (p.1 < 0 ∨ (kb.idMap.length : Int) ≤ p.1)
    · simp [hout] at hemit
    · simp only [hout, if_false] at hemit
      cases hget : Store.get kb.store (kb.idMap.getD p.1.toNat "") with
      | none => rw [hget] at hemit; simp at hemit
      | some v =>
          cases v with
          | none => rw [hget] at hemit; simp at hemit
          | some r =>
              rw [hget] at hemit
              simp only [Option.some.injEq] at hemit
              have hid : res.id = kb.idMap.getD p.1.toNat "" := by
                rw [← hemit]
              have hlt : p.1.toNat < kb.idMap.length := by omega
              rw [hid, List.getD_eq_getElem _ _ hlt]
              exact List.getElem_mem hlt

/-- C9: `add` does not reject an id carrying a reserved prefix `pref:` or
`meta:`: the record is written and indexed and `exists` reports it; but the
rebuild step shared by `update`, `remove` and reopen drops it from the slot
table while its record stays in the store, so it no longer appears in any
search result. -/
theorem C9_reserved_id_indexed_until_rebuild (kb : KnowledgeBase) (genId : String)
    (m : Memory)
    (hpfx : startsWithStr m.id "pref:" = true ∨ startsWithStr m.id "meta:" = true)
    (hfresh : kb.existsId m.id = false) :
    (kb.addAndReturnId genId true m).1 = m.id ∧
    (kb.addAndReturnId genId true m).2.existsId m.id = true ∧
    m.id ∈ (kb.addAndReturnId genId true m).2.idMap ∧
    m.id ∉ ((kb.addAndReturnId genId true m).2.loadIndex).idMap ∧
    ((kb.addAndReturnId genId true m).2.loadIndex).existsId m.id = true ∧
    ∀ q k, ∀ res ∈ ((kb.addAndReturnId genId true m).2.loadIndex).search q k,
      res.id ≠ m.id := by
  have hid : m.id ≠ "" := by
    intro h
    rcases hpfx with h' | h'
    · rw [h] at h'
      exact absurd h' (by decide)
    · rw [h] at h'
      exact absurd h' (by decide)
  have hite : (if m.id = "" then genId else m.id) = m.id := if_neg hid
  have heq : (kb.addAndReturnId genId true m).2 = { kb with store := Store.put kb.store m.id (some { id := m.id, content := m.content, category := m.category, timestamp := m.timestamp, embedding := some m.embedding }), idMap := kb.idMap ++ [m.id], ntotal := kb.ntotal + 1, vdata := kb.vdata ++ m.embedding } := by
    simp [KnowledgeBase.addAndReturnId, hite, hfresh]
  have hfst : (kb.addAndReturnId genId true m).1 = m.id := by
    simp [KnowledgeBase.addAndReturnId, hite, hfresh]
  have hnotidx : m.id ∉ ((kb.addAndReturnId genId true m).2.loadIndex).idMap := by
    rw [heq]
    simp only [KnowledgeBase.loadIndex]
    intro hmem
    rcases List.mem_map.1 hmem with ⟨ke, hke, hkefst⟩
    obtain ⟨r, -, -, hmeta, hpref⟩ := survivors_spec hke
    rw [hkefst] at hmeta hpref
    rcases hpfx with h' | h'
    · rw [h'] at hpref
      exact absurd hpref (by decide)
    · rw [h'] at hmeta
      exact absurd hmeta (by decide)
  refine ⟨hfst, ?_, ?_, hnotidx, ?_, ?_⟩
  · rw [heq]
    simp [KnowledgeBase.existsId, Store.get_put_self]
  · rw [heq]
    simp
  · rw [heq]
    simp [KnowledgeBase.existsId, KnowledgeBase.loadIndex, Store.get_put_self]
  · intro q k res hres hcontra
    have hmem := search_result_id_mem _ q k hres
    rw [hcontra] at hmem
    exact hnotidx hmem

def kbC9 : KnowledgeBase := KnowledgeBase.openKB 2 []

def mC9 : Memory :=
  { id := "pref:theme", content := "dark", category := "g", timestamp := 4, embedding := [3, 3] }

/-- Witness for C9 on a concrete reserved-prefix id. -/
theorem C9_reserved_id_indexed_until_rebuild_witness :
    (startsWithStr mC9.id "pref:" = true ∨ startsWithStr mC9.id "meta:" = true) ∧
    kbC9.existsId mC9.id = false ∧
    ((kbC9.addAndReturnId "gid" true mC9).1 = mC9.id ∧
     (kbC9.addAndReturnId "gid" true mC9).2.existsId mC9.id = true ∧
     mC9.id ∈ (kbC9.addAndReturnId "gid" true mC9).2.idMap ∧
     mC9.id ∉ ((kbC9.addAndReturnId "gid" true mC9).2.loadIndex).idMap ∧
     ((kbC9.addAndReturnId "gid" true mC9).2.loadIndex).existsId mC9.id = true ∧
     ∀ q k, ∀ res ∈ ((kbC9.addAndReturnId "gid" true mC9).2.loadIndex).search q k,
       res.id ≠ mC9.id) :=
  ⟨by decide, by decide,
   C9_reserved_id_indexed_until_rebuild kbC9 "gid" mC9 (by decide) (by decide)⟩

/-- C10: when the stored bytes for an existing id fail to decode, `update`
returns failure with no put issued and the index and slot table untouched:
the whole engine state is unchanged. -/
theorem C10_update_decode_failure_no_write (kb : KnowledgeBase) (now : Int)
    (putOk : Bool) (id c : String) (emb : Vec)
    (h : Store.get kb.store id = some none) :
    kb.update now putOk id c emb = (false, kb) := by
  simp [KnowledgeBase.update, h]

def kbC10 : KnowledgeBase := KnowledgeBase.openKB 2 [("bad", none)]

/-- Witness for C10 on a concrete undecodable stored value. -/
theorem C10_update_decode_failure_no_write_witness :
    (Store.get kbC10.store "bad" = some none) ∧
    kbC10.update 9 true "bad" "x" [1, 1] = (false, kbC10) :=
  ⟨by decide, C10_update_decode_failure_no_write kbC10 9 true "bad" "x" [1, 1] (by decide)⟩
